import Mathlib

/-!
# Verification of the ngx-formly `FormlyField` rendering engine

Shallow embedding of `src/core/src/lib/components/formly.field.ts`:

* the value-change wiring of `fieldChanges` (stream construction with
  `distinctUntilChanged`, `startWith`, `debounceTime`, and the subscriber that
  applies parsers, writes the value back and broadcasts a `valueChanges` event)
  is modelled as pure transformers over finite emission lists;
* the rendering machinery (`renderField`, the `fieldComponent` observer
  callback, `attachComponentRef`, `resetRefs`, `renderHostBinding`,
  `triggerHook`, `ngOnDestroy`) is modelled as explicit state passing over an
  `RState` record, with an action trace recording the side effects
  (instantiation, pruning, clearing, insertion, change detection,
  subscription cancellation, hook calls).
-/

namespace Formly

/-! ## Value-change stream model (`fieldChanges`, lines 195-222)

RxJS streams are modelled as finite lists of emissions; the raw
`control.valueChanges` stream carries timestamps (needed by `debounceTime`).
-/

/-- `modelOptions` record of a field configuration (only the members the
engine reads: `updateOn` and `debounce.default`). -/
structure ModelOptions where
  updateOn : Option String := none
  debounceDefault : Option Nat := none

/-- The slice of a `FormlyFieldConfig` consumed by the value wiring of
`fieldChanges`: binding key, presence of a child `fieldGroup`, `modelOptions`,
the ordered `parsers` list, the value currently readable off the node
(`getFieldValue`), and the number of field bindings sharing the control
(`control._fields.length`). -/
structure VField (α : Type) where
  key : Option String := none
  fieldGroup : Bool := false
  modelOptions : ModelOptions := {}
  parsers : List (α → α) := []
  storedValue : α
  fieldsCount : Nat := 1

/-- Helper for `distinctUntilChanged`: drop emissions equal to the previous
one. -/
def dedupFrom [DecidableEq α] (prev : α) : List α → List α
  | [] => []
  | x :: xs => if x = prev then dedupFrom prev xs else x :: dedupFrom x xs

/-- RxJS `distinctUntilChanged` on a finite emission list: suppress
consecutive duplicates. -/
def distinctUntilChanged [DecidableEq α] : List α → List α
  | [] => []
  | x :: xs => x :: dedupFrom x xs

/-- RxJS `debounceTime d` on a finite timed emission list: an emission is
delivered only if the next one arrives at least `d` time units later; the
final pending emission is flushed when the source completes. -/
def debounceTimeL (d : Nat) : List (Nat × α) → List α
  | [] => []
  | [(_, v)] => [v]
  | (t, v) :: (t', v') :: rest =>
    if t + d ≤ t' then v :: debounceTimeL d ((t', v') :: rest)
    else debounceTimeL d ((t', v') :: rest)

/-- The stream built on lines 197-201, before the debounce policy decision:
`control.valueChanges.pipe(distinctUntilChanged())`, prefixed with the
control's current value when it differs from the node's current read value. -/
def preDebounceStream [DecidableEq α] (cv fv : α) (raw : List (Nat × α)) : List α :=
  let vc := distinctUntilChanged (raw.map Prod.snd)
  if cv ≠ fv then cv :: vc else vc

/-- The condition of line 204: `(!updateOn || updateOn === 'change') &&
debounce && debounce.default > 0`. -/
def debounceActive (mo : ModelOptions) : Bool :=
  (mo.updateOn.isNone || mo.updateOn == some "change") &&
    (match mo.debounceDefault with
     | some d => decide (0 < d)
     | none => false)

/-- The subscribed stream of `fieldChanges` (lines 196-206): the
duplicate-suppressed stream with optional synthetic initial emission, unless
the debounce policy applies, in which case the stream is rebuilt from the raw
change stream with `debounceTime` applied. -/
def buildValueChanges [DecidableEq α] (f : VField α) (cv : α) (raw : List (Nat × α)) : List α :=
  let vc := preDebounceStream cv f.storedValue raw
  match f.modelOptions.debounceDefault with
  | some d =>
    if (f.modelOptions.updateOn.isNone || f.modelOptions.updateOn == some "change") &&
        decide (0 < d) then
      debounceTimeL d raw
    else vc
  | none => vc

/-- Event broadcast on `field.options.fieldChanges` (line 219):
`{ value, field, type: 'valueChanges' }`; the field is identified by its
binding key here. -/
structure ValueChangeEvent (α : Type) where
  value : α
  fieldKey : Option String
  type : String
deriving DecidableEq

/-- State threaded through the value-change subscriber: the value stored on
the node (visible to `getFieldValue` / written by `assignFieldValue`), the
`patchValue` calls of the shared-control workaround, and the broadcast
events. `assignFieldValue` (Modelled from the spec: the value-write accessor
writes the transformed value onto the node) is represented by updating
`stored`. -/
structure SyncState (α : Type) where
  stored : α
  patches : List α := []
  events : List (ValueChangeEvent α) := []
deriving DecidableEq

/-- Ordered application of the node's `parsers` (line 215):
`field.parsers.forEach((parserFn) => (value = parserFn(value)))`. -/
def applyParsers (ps : List (α → α)) (v : α) : α :=
  ps.foldl (fun acc p => p acc) v

/-- One step of the subscriber on lines 208-220: shared-control patch-back
workaround, parser application, value write, event broadcast. -/
def onEmission (f : VField α) (s : SyncState α) (v : α) : SyncState α :=
  let s := if 1 < f.fieldsCount then { s with patches := s.patches ++ [v] } else s
  let v := applyParsers f.parsers v
  { s with stored := v,
           events := s.events ++ [{ value := v, fieldKey := f.key, type := "valueChanges" }] }

/-- Full value wiring for a bound leaf node: build the subscribed stream and
run the subscriber over every delivered emission. -/
def runFieldChanges [DecidableEq α] (f : VField α) (cv : α) (raw : List (Nat × α)) : SyncState α :=
  (buildValueChanges f cv raw).foldl (onEmission f) { stored := f.storedValue }

/-! ### Stream lemmas -/

theorem foldl_onEmission_events (f : VField α) :
    ∀ (l : List α) (s : SyncState α),
      (l.foldl (onEmission f) s).events
        = s.events ++ l.map (fun v =>
            ({ value := applyParsers f.parsers v, fieldKey := f.key,
               type := "valueChanges" } : ValueChangeEvent α)) := by
  intro l
  induction l with
  | nil => intro s; simp
  | cons x xs ih =>
    intro s
    simp only [List.foldl_cons, ih, List.map_cons]
    simp [onEmission]
    split <;> simp

theorem buildValueChanges_of_not_active [DecidableEq α] (f : VField α) (cv : α)
    (raw : List (Nat × α)) (h : debounceActive f.modelOptions = false) :
    buildValueChanges f cv raw = preDebounceStream cv f.storedValue raw := by
  unfold buildValueChanges
  unfold debounceActive at h
  cases hdb : f.modelOptions.debounceDefault with
  | none => simp
  | some d =>
    rw [hdb] at h
    simp only [Bool.and_eq_false_iff] at h
    simp only []
    rw [if_neg]
    simp only [Bool.and_eq_true_iff]
    rintro ⟨h1, h2⟩
    rcases h with h | h
    · rw [h1] at h; cases h
    · rw [h2] at h; cases h

theorem debounceTimeL_rapid (d : Nat) :
    ∀ (l : List (Nat × α)) (hne : l ≠ []),
      List.Chain' (fun a b => b.1 < a.1 + d) l →
      debounceTimeL d l = [(l.getLast hne).2] := by
  intro l
  induction l with
  | nil => intro hne; cases hne rfl
  | cons x xs ih =>
    intro hne hch
    cases xs with
    | nil => simp [debounceTimeL]
    | cons y ys =>
      have hy : y.1 < x.1 + d := (List.chain'_cons.mp hch).1
      have hch' : List.Chain' (fun a b => b.1 < a.1 + d) (y :: ys) :=
        (List.chain'_cons.mp hch).2
      have hne' : y :: ys ≠ [] := by simp
      have : debounceTimeL d (x :: y :: ys) = debounceTimeL d (y :: ys) := by
        show (if x.1 + d ≤ y.1 then x.2 :: debounceTimeL d ((y.1, y.2) :: ys)
              else debounceTimeL d ((y.1, y.2) :: ys)) = _
        rw [if_neg (by omega)]
      rw [this, ih hne' hch', List.getLast_cons hne']

/-! ### Claims C4, C5, C6 -/

/-- The example parser `(v) => v.trim()`: strip leading and trailing
whitespace (kernel-computable counterpart of `String.trim`). -/
def trimStr (s : String) : String :=
  ⟨((s.data.dropWhile Char.isWhitespace).reverse.dropWhile Char.isWhitespace).reverse⟩

/-- The example node of the spec: `{type:'input', key:'name'}` bound to a
control whose value differs from the node's stored value, with one
`trim` parser. -/
def exampleField : VField String :=
  { key := some "name", storedValue := "Ali", parsers := [trimStr] }

/-- Claim C4: when establishing the value wiring for a bound leaf node (and
the debounce policy of C5 is not active), the control's current value is
prepended as an initial synthetic emission exactly when it differs from the
value read off the node; when they are equal no synthetic initial emission
occurs, so the number of downstream writes equals the number of
duplicate-suppressed raw emissions (no redundant write-back). -/
theorem valueChanges_startWith_iff [DecidableEq α] (f : VField α) (cv : α)
    (raw : List (Nat × α)) (hnd : debounceActive f.modelOptions = false) :
    (cv ≠ f.storedValue →
      buildValueChanges f cv raw = cv :: distinctUntilChanged (raw.map Prod.snd)) ∧
    (cv = f.storedValue →
      buildValueChanges f cv raw = distinctUntilChanged (raw.map Prod.snd) ∧
      (runFieldChanges f cv raw).events.length
        = (distinctUntilChanged (raw.map Prod.snd)).length) := by
  have hb := buildValueChanges_of_not_active f cv raw hnd
  constructor
  · intro hne
    rw [hb]
    unfold preDebounceStream
    simp [hne]
  · intro heq
    have hb' : buildValueChanges f cv raw = distinctUntilChanged (raw.map Prod.snd) := by
      rw [hb]; unfold preDebounceStream; simp [heq]
    refine ⟨hb', ?_⟩
    unfold runFieldChanges
    rw [hb', foldl_onEmission_events]
    simp

/-- Witness for C4 at a concrete input: control value `7` equals the stored
value, two raw emissions `[5, 5]` dedupe to one, and exactly one downstream
write occurs. -/
theorem valueChanges_startWith_iff_witness :
    (debounceActive ({} : ModelOptions) = false) ∧
    (buildValueChanges ({ storedValue := 7 } : VField Nat) 7 [(0, 5), (1, 5)]
        = distinctUntilChanged [5, 5] ∧
      (runFieldChanges ({ storedValue := 7 } : VField Nat) 7 [(0, 5), (1, 5)]).events.length
        = (distinctUntilChanged [5, 5]).length) :=
  ⟨by decide,
    (valueChanges_startWith_iff ({ storedValue := 7 } : VField Nat) 7 [(0, 5), (1, 5)]
      (by decide)).2 rfl⟩

/-- Claim C5: with `updateOn` unset or `"change"` and `debounce.default = d > 0`,
the subscribed stream is rebuilt from the raw change stream with the debounce
interval applied (superseding duplicate suppression and the synthetic initial
emission); `n` rapid emissions whose consecutive gaps are all below `d`
collapse to exactly one downstream write carrying the latest value. -/
theorem debounce_collapses_emissions [DecidableEq α] (f : VField α) (cv : α)
    (raw : List (Nat × α)) (d : Nat)
    (hup : f.modelOptions.updateOn = none ∨ f.modelOptions.updateOn = some "change")
    (hdb : f.modelOptions.debounceDefault = some d) (hd : 0 < d)
    (hne : raw ≠ []) (hrapid : List.Chain' (fun a b => b.1 < a.1 + d) raw) :
    buildValueChanges f cv raw = debounceTimeL d raw ∧
    buildValueChanges f cv raw = [(raw.getLast hne).2] ∧
    (runFieldChanges f cv raw).events
      = [{ value := applyParsers f.parsers (raw.getLast hne).2, fieldKey := f.key,
           type := "valueChanges" }] := by
  have hb : buildValueChanges f cv raw = debounceTimeL d raw := by
    unfold buildValueChanges
    rw [hdb]
    rcases hup with h | h <;> simp [h, hd]
  have hcollapse := debounceTimeL_rapid d raw hne hrapid
  refine ⟨hb, by rw [hb, hcollapse], ?_⟩
  unfold runFieldChanges
  rw [hb, hcollapse, foldl_onEmission_events]
  simp

/-- Witness for C5 at a concrete input: three rapid emissions `1, 2, 3` at
times `0, 1, 2` under debounce interval `5` collapse to the single write `3`. -/
theorem debounce_collapses_emissions_witness :
    buildValueChanges
        ({ storedValue := 0,
           modelOptions := { updateOn := none, debounceDefault := some 5 } } : VField Nat)
        9 [(0, 1), (1, 2), (2, 3)]
      = debounceTimeL 5 [(0, 1), (1, 2), (2, 3)] ∧
    buildValueChanges
        ({ storedValue := 0,
           modelOptions := { updateOn := none, debounceDefault := some 5 } } : VField Nat)
        9 [(0, 1), (1, 2), (2, 3)]
      = [(([(0, 1), (1, 2), (2, 3)] : List (Nat × Nat)).getLast (by decide)).2] ∧
    (runFieldChanges
        ({ storedValue := 0,
           modelOptions := { updateOn := none, debounceDefault := some 5 } } : VField Nat)
        9 [(0, 1), (1, 2), (2, 3)]).events
      = [{ value := applyParsers [] 3, fieldKey := none, type := "valueChanges" }] :=
  debounce_collapses_emissions _ 9 [(0, 1), (1, 2), (2, 3)] 5 (Or.inl rfl) rfl
    (by decide) (by decide) (by simp)

/-- Claim C6: for every value delivered on a bound node's subscribed stream,
the node's parsers are applied in listed order, the transformed result is
written onto the node, and a `{value, node, type: 'valueChanges'}` event
carrying the transformed value is broadcast; the spec's example (control
value `"Al"`, stored value `"Ali"`, one `trim` parser) produces the initial
synthetic emission `"Al"`, stores `"Al"` and broadcasts `"Al"`. -/
theorem emission_parses_writes_broadcasts (f : VField α) (s : SyncState α) (v : α) :
    (onEmission f s v).stored = applyParsers f.parsers v ∧
    (onEmission f s v).events
      = s.events ++ [{ value := applyParsers f.parsers v, fieldKey := f.key,
                       type := "valueChanges" }] ∧
    runFieldChanges exampleField "Al" []
      = { stored := "Al", patches := [],
          events := [{ value := "Al", fieldKey := some "name", type := "valueChanges" }] } := by
  refine ⟨?_, ?_, ?_⟩
  · unfold onEmission
    split <;> rfl
  · unfold onEmission
    split <;> rfl
  · rfl

/-! ## Rendering engine model

`FormlyField` holds mutable state: `componentRefs`, `hostObservers`,
`hooksObservers`, the `valueChangesUnsubscribe` closure, the per-node hidden
`_componentRefs` list, and the visual tree (mount points holding views).
All of it is threaded explicitly through an `RState` record.  Mount points
and views are identified by natural numbers; component handles record which
renderer implementation produced them and the mount point they were
instantiated into.  Side effects are additionally recorded in an action
trace.

The `observe` utility (not part of this source file) fires its callback with
`{currentValue, previousValue, firstChange}`; an observation of a wrapper's
`fieldComponent` property is modelled as an external event whose parameters
are passed to `observerFire`, the embedding of the callback on lines 86-97.
-/

/-- The external registry: `getWrapper`/`getType` resolve a name to a
renderer component (components are identified by name). -/
structure Registry where
  getWrapper : String → String
  getType : String → String

/-- A renderer component reference: produced either from a wrapper renderer
or from a type renderer of the registry. -/
inductive HComp where
  | wrapperC (w : String)
  | typeC (t : String)
deriving DecidableEq

/-- Lifecycle hook callbacks optionally defined on a node; `some b` means the
hook is defined and `b` tells whether its result is an observable. -/
structure Hooks where
  onInit : Option Bool := none
  onChanges : Option Bool := none
  afterContentInit : Option Bool := none
  afterViewInit : Option Bool := none
  onDestroy : Option Bool := none
deriving DecidableEq

/-- Lifecycle hook names dispatched by `triggerHook`. -/
inductive HookName where
  | onInit
  | onChanges
  | afterContentInit
  | afterViewInit
  | onDestroy
deriving DecidableEq

/-- `field.hooks[name]` lookup. -/
def Hooks.get (h : Hooks) : HookName → Option Bool
  | .onInit => h.onInit
  | .onChanges => h.onChanges
  | .afterContentInit => h.afterContentInit
  | .afterViewInit => h.afterViewInit
  | .onDestroy => h.onDestroy

/-- The slice of a `FormlyFieldConfig` consumed by the rendering engine:
identity, type identifier, wrapper sequence, binding key, child-group
presence and hook callbacks. -/
structure FieldConfig where
  id : Nat
  type : Option String := none
  wrappers : Option (List String) := none
  key : Option String := none
  fieldGroup : Bool := false
  hooks : Hooks := {}
deriving DecidableEq

/-- An instantiated component handle: its id, the renderer component that
produced it, the mount point it was created in, the inner mount point its
instance currently exposes as `fieldComponent` (wrappers only), and the node
attached onto its instance. -/
structure Handle where
  id : Nat
  comp : HComp
  mount : Nat
  inner : Option Nat := none
  attachedField : Option Nat := none
deriving DecidableEq

/-- Data captured by the `fieldComponent` observer registered on lines
86-97: the wrapper handle observed, the node and the remaining wrappers of
the pending recursive invocation. -/
structure ObsData where
  refId : Nat
  f : Option FieldConfig
  wps : List String
deriving DecidableEq

/-- The `SimpleChange` entry for the `field` input of `ngOnChanges`. -/
structure FieldSimpleChange where
  previousValue : Option FieldConfig
  firstChange : Bool
deriving DecidableEq

/-- Observable side effects of the engine, in execution order. -/
inductive Action where
  | renderStart (mount : Nat) (fieldId : Option Nat)
  | create (id : Nat) (comp : HComp) (mount : Nat)
  | pruneRefs (fieldId : Nat) (released : List Nat)
  | clearMountA (mount : Nat)
  | detachA (mount : Nat) (view : Nat)
  | insertA (mount : Nat) (view : Nat)
  | detectChangesA (ref : Nat)
  | hostBinding
  | cancelA (sub : Nat)
  | hookCall (h : HookName)
  | subscribeValueChanges
deriving DecidableEq

/-- Complete mutable state of one `FormlyField` renderer instance together
with the shared visual tree and per-node tracked handle lists. -/
structure RState where
  field : Option FieldConfig := none
  containerRef : Nat := 0
  componentRefs : List Nat := []
  hostObservers : List Nat := []
  hooksObservers : List Nat := []
  valueSubs : List Nat := []
  fieldRefsMap : List (Nat × List Nat) := []
  handles : List Handle := []
  mounts : List (Nat × List Nat) := []
  destroyedViews : List Nat := []
  obsQueue : List ObsData := []
  nextHandle : Nat := 0
  nextMount : Nat := 1
  nextSub : Nat := 0
  cancelled : List Nat := []
  trace : List Action := []
deriving DecidableEq

/-- First-match association-list lookup (one entry per key). -/
def lookupL {β : Type} : List (Nat × β) → Nat → Option β
  | [], _ => none
  | p :: ps, k => if p.1 = k then some p.2 else lookupL ps k

/-- Association-list update: replace the first entry for the key, append if
absent. -/
def setL {β : Type} : List (Nat × β) → Nat → β → List (Nat × β)
  | [], k, v => [(k, v)]
  | p :: ps, k, v => if p.1 = k then (k, v) :: ps else p :: setL ps k v

/-- Append one action to the trace. -/
def pushTrace (st : RState) (a : Action) : RState :=
  { st with trace := st.trace ++ [a] }

/-- The views currently hosted by a mount point, in order. -/
def viewsOf (st : RState) (m : Nat) : List Nat :=
  (lookupL st.mounts m).getD []

/-- `mountPoint.clear()`: destroy and remove every view of the mount point. -/
def clearMount (st : RState) (m : Nat) : RState :=
  { st with mounts := setL st.mounts m [],
            destroyedViews := st.destroyedViews ++ viewsOf st m,
            trace := st.trace ++ [.clearMountA m] }

/-- `mountPoint.insert(viewRef)`: re-host a detached view. -/
def insertMount (st : RState) (m : Nat) (v : Nat) : RState :=
  { st with mounts := setL st.mounts m (viewsOf st m ++ [v]),
            trace := st.trace ++ [.insertA m v] }

/-- `mountPoint.detach()`: remove and return the last hosted view, `none` on
an empty mount point. -/
def detachMount (st : RState) (m : Nat) : Option Nat × RState :=
  match (viewsOf st m).getLast? with
  | none => (none, st)
  | some v =>
    (some v, { st with mounts := setL st.mounts m (viewsOf st m).dropLast,
                       trace := st.trace ++ [.detachA m v] })

/-- Record the inner mount point a wrapper instance currently exposes as its
`fieldComponent`. -/
def setInnerL (l : List Handle) (r m : Nat) : List Handle :=
  l.map (fun h => if h.id = r then { h with inner := some m } else h)

/-- Record the node attached onto a handle's instance
(`Object.assign(ref.instance, { field })`). -/
def setAttachedL (l : List Handle) (r fid : Nat) : List Handle :=
  l.map (fun h => if h.id = r then { h with attachedField := some fid } else h)

/-- `containerRef.createComponent(resolver.resolveComponentFactory(component))`:
instantiate a renderer into a mount point, hosting its view there. -/
def createComponent (st : RState) (m : Nat) (c : HComp) : Nat × RState :=
  let i := st.nextHandle
  (i, { st with nextHandle := i + 1,
                handles := st.handles ++ [{ id := i, comp := c, mount := m }],
                mounts := setL st.mounts m (viewsOf st m ++ [i]),
                trace := st.trace ++ [.create i c m] })

/-- `attachComponentRef` (lines 127-131): push onto this renderer's
`componentRefs`, push onto the node's `_componentRefs`, attach the node onto
the instance. -/
def attachComponentRef (st : RState) (r : Nat) (f : Option FieldConfig) : RState :=
  let st := { st with componentRefs := st.componentRefs ++ [r] }
  match f with
  | none => st
  | some fc =>
    { st with
        fieldRefsMap := setL st.fieldRefsMap fc.id
          ((lookupL st.fieldRefsMap fc.id).getD [] ++ [r]),
        handles := setAttachedL st.handles r fc.id }

/-- `resetRefs` (lines 153-163): prune the node's `_componentRefs` of exactly
the handles in this renderer's own `componentRefs` (define the hidden list on
`this.field` when absent), then empty this renderer's `componentRefs`. -/
def resetRefs (st : RState) (f : Option FieldConfig) : RState :=
  let st :=
    match f with
    | none => st
    | some fc =>
      match lookupL st.fieldRefsMap fc.id with
      | some refs =>
        { st with
            fieldRefsMap := setL st.fieldRefsMap fc.id
              (refs.filter (fun r => !decide (r ∈ st.componentRefs))),
            trace := st.trace ++
              [Action.pruneRefs fc.id (refs.filter (fun r => decide (r ∈ st.componentRefs)))] }
      | none =>
        match st.field with
        | some cur =>
          { st with fieldRefsMap := setL st.fieldRefsMap cur.id [],
                    trace := st.trace ++ [Action.pruneRefs cur.id []] }
        | none => st
  { st with componentRefs := [] }

/-- The instantiation dispatch of `renderField` (lines 80-102): instantiate
the first wrapper and register the `fieldComponent` observer when wrappers
remain; otherwise instantiate the leaf type renderer when the node has a
type. -/
def renderFieldCore (reg : Registry) (st : RState) (containerRef : Nat)
    (f : Option FieldConfig) (wrappers : Option (List String)) : RState :=
  match wrappers with
  | some (w :: wps) =>
    let c := HComp.wrapperC (reg.getWrapper w)
    let p := createComponent st containerRef c
    let st := attachComponentRef p.2 p.1 f
    { st with obsQueue := st.obsQueue ++ [{ refId := p.1, f := f, wps := wps }] }
  | _ =>
    match f with
    | some fc =>
      match fc.type with
      | some t =>
        let c := HComp.typeC (reg.getType t)
        let p := createComponent st containerRef c
        attachComponentRef p.2 p.1 (some fc)
      | none => st
    | none => st

/-- `renderField` (lines 74-103), one invocation level: reset and clear when
invoked on this renderer's own top-level mount point, then dispatch on the
remaining wrappers.  The recursive invocation inside the observer callback
is performed by `observerFire` when the observation event arrives. -/
def renderField (reg : Registry) (st : RState) (containerRef : Nat)
    (f : Option FieldConfig) (wrappers : Option (List String)) : RState :=
  let st := pushTrace st (.renderStart containerRef (f.map (fun fc => fc.id)))
  let st :=
    if st.containerRef = containerRef then clearMount (resetRefs st st.field) st.containerRef
    else st
  renderFieldCore reg st containerRef f wrappers

/-- The `fieldComponent` observer callback (lines 86-97), fired with the
observation parameters: on a truthy new inner mount point, detach the
previous one's last view; reattach it if it survived, otherwise recurse via
`renderField`; force change detection unless this is the first observation. -/
def observerFire (reg : Registry) (st : RState) (o : ObsData)
    (previousValue currentValue : Option Nat) (firstChange : Bool) : RState :=
  match currentValue with
  | none => st
  | some cur =>
    let st := { st with handles := setInnerL st.handles o.refId cur }
    let d := match previousValue with
      | some pv => detachMount st pv
      | none => (none, st)
    let st :=
      match d.1 with
      | some vr =>
        if d.2.destroyedViews.contains vr then renderField reg d.2 cur o.f (some o.wps)
        else insertMount d.2 cur vr
      | none => renderField reg d.2 cur o.f (some o.wps)
    if firstChange then st else pushTrace st (.detectChangesA o.refId)

/-- Canonical driver for a full render: each registered wrapper observer
fires once, at first attach, with a freshly materialized inner mount point
(the wrapper's template exposing its `fieldComponent`). -/
def driveObservers (reg : Registry) : Nat → RState → RState
  | 0, st => st
  | Nat.succ n, st =>
    match st.obsQueue with
    | [] => st
    | o :: rest =>
      let m := st.nextMount
      let st := { st with obsQueue := rest, nextMount := m + 1,
                          mounts := setL st.mounts m [] }
      driveObservers reg n (observerFire reg st o none (some m) true)

/-- Cancel a batch of subscriptions (`unsubscribe()` on each). -/
def cancelAll (st : RState) (l : List Nat) : RState :=
  { st with cancelled := st.cancelled ++ l,
            trace := st.trace ++ l.map Action.cancelA }

/-- `renderHostBinding` (lines 133-151): tear down the previous host-level
observers and establish the two observers of `hide` and `className`. -/
def renderHostBinding (st : RState) : RState :=
  match st.field with
  | none => st
  | some _ =>
    let st := cancelAll st st.hostObservers
    { st with hostObservers := [st.nextSub, st.nextSub + 1],
              nextSub := st.nextSub + 2,
              trace := st.trace ++ [Action.hostBinding] }

/-- Subscription bookkeeping of `fieldChanges` (lines 165-226): cancel the
chain previously captured by `valueChangesUnsubscribe`, then establish the
two deep observers, the three shallow observers, and — for a bound leaf node
— the value-change subscription. -/
def fieldChanges (st : RState) (f : Option FieldConfig) : RState :=
  let st := cancelAll st st.valueSubs
  match f with
  | none => { st with valueSubs := [] }
  | some fc =>
    let n := 5 + (if fc.key.isSome && !fc.fieldGroup then 1 else 0)
    { st with valueSubs := (List.range n).map (fun i => st.nextSub + i),
              nextSub := st.nextSub + n,
              trace := st.trace ++ [Action.subscribeValueChanges] }

/-- `!changes || changes.field`: hook callbacks run when there is no changes
record at all, or when the `field` input is among the changes. -/
def changesFieldOk : Option (Option FieldSimpleChange) → Bool
  | none => true
  | some (some _) => true
  | some none => false

/-- The `fieldChanges` re-wiring block of `triggerHook` (lines 106-108):
re-subscribe on `onInit` and on non-first `field` changes. -/
def hookStage1 (st : RState) (name : HookName)
    (changes : Option (Option FieldSimpleChange)) : RState :=
  match name, changes with
  | .onInit, _ => fieldChanges st st.field
  | .onChanges, some (some c) => if c.firstChange then st else fieldChanges st st.field
  | _, _ => st

/-- The hook-invocation block of `triggerHook` (lines 110-118). -/
def hookStage2 (st : RState) (name : HookName)
    (changes : Option (Option FieldSimpleChange)) : RState :=
  match st.field with
  | none => st
  | some fc =>
    match fc.hooks.get name with
    | none => st
    | some obs =>
      if changesFieldOk changes then
        let st := pushTrace st (.hookCall name)
        if obs && (decide (name = HookName.onInit) || decide (name = HookName.afterContentInit)
            || decide (name = HookName.afterViewInit)) then
          { st with hooksObservers := st.hooksObservers ++ [st.nextSub],
                    nextSub := st.nextSub + 1 }
        else st
      else st

/-- `triggerHook` (lines 105-125): re-wire `fieldChanges` on `onInit` and on
non-first `field` changes; invoke the node's hook callback (retaining a
cancellation for observable results of the three creation hooks); and on a
`field` change re-establish host bindings, prune the previous node's tracked
handles and re-render from the top-level mount point. -/
def triggerHook (reg : Registry) (st : RState) (name : HookName)
    (changes : Option (Option FieldSimpleChange)) : RState :=
  let st := hookStage1 st name changes
  let st := hookStage2 st name changes
  match name, changes with
  | .onChanges, some (some c) =>
    let st := renderHostBinding st
    let st := resetRefs st c.previousValue
    renderField reg st st.containerRef st.field
      (match st.field with | some fc => fc.wrappers | none => some [])
  | _, _ => st

/-- `ngOnDestroy` (lines 66-72): prune the node's tracked handles, cancel the
host observers, the hook-held observers and the value-change chain, then fire
the `onDestroy` hook. -/
def ngOnDestroy (reg : Registry) (st : RState) : RState :=
  let st := resetRefs st st.field
  let st := cancelAll st st.hostObservers
  let st := cancelAll st st.hooksObservers
  let st := cancelAll st st.valueSubs
  triggerHook reg st .onDestroy none

/-- The actions a computation appended beyond a starting state's trace. -/
def traceDelta (s1 s2 : RState) : List Action :=
  s2.trace.drop s1.trace.length

/-- All handles released (pruned from tracked lists) by the actions of a
trace segment. -/
def releasedIn (l : List Action) : List Nat :=
  l.foldr (fun a acc => match a with | .pruneRefs _ rel => rel ++ acc | _ => acc) []

/-- Whether an action is a component instantiation. -/
def isCreateA : Action → Bool
  | .create _ _ _ => true
  | _ => false

/-- Whether an action is a forced change-detection pass. -/
def isDetectA : Action → Bool
  | .detectChangesA _ => true
  | _ => false

/-- Whether an action is a subscription cancellation. -/
def isCancelA : Action → Bool
  | .cancelA _ => true
  | _ => false

/-- Whether an action is a hook callback invocation. -/
def isHookCallA : Action → Bool
  | .hookCall _ => true
  | _ => false

/-- The handle chain a full render of `ws` wrappers (terminated by an
optional leaf of type `ty`) produces, starting from handle id `h` at mount
point `m`: each wrapper is instantiated into the previous wrapper's inner
mount point, the leaf into the innermost one. -/
def chainHandles (reg : Registry) (fid : Nat) : Nat → Nat → List String → Option String → List Handle
  | _, _, [], none => []
  | h, m, [], some t =>
    [{ id := h, comp := .typeC (reg.getType t), mount := m, inner := none,
       attachedField := some fid }]
  | h, m, w :: ws, ty =>
    { id := h, comp := .wrapperC (reg.getWrapper w), mount := m, inner := some (m + 1),
      attachedField := some fid } :: chainHandles reg fid (h + 1) (m + 1) ws ty

/-- A fresh renderer instance bound to node `f`, with top-level mount point
`0` and the node's hidden `_componentRefs` already defined (as after a first
render). -/
def initState (f : FieldConfig) : RState :=
  { field := some f, containerRef := 0, fieldRefsMap := [(f.id, [])],
    mounts := [(0, [])], nextHandle := 0, nextMount := 1 }

/-- A full top-level render of node `f`: invoke `renderField` on the
top-level mount point and let every registered wrapper observer fire once
with its freshly materialized inner mount point. -/
def renderAll (reg : Registry) (f : FieldConfig) : RState :=
  driveObservers reg (f.wrappers.getD []).length
    (renderField reg (initState f) 0 (some f) f.wrappers)

/-- The component instantiations among a trace segment. -/
def createsIn (l : List Action) : List Action :=
  l.filter isCreateA

/-! ### Association-list lemmas -/

@[simp]
theorem lookupL_setL_self {β : Type} (l : List (Nat × β)) (k : Nat) (v : β) :
    lookupL (setL l k v) k = some v := by
  induction l with
  | nil => simp [setL, lookupL]
  | cons p ps ih =>
    by_cases h : p.1 = k
    · simp [setL, lookupL, h]
    · simp [setL, lookupL, h, ih]

theorem lookupL_setL_ne {β : Type} (l : List (Nat × β)) (k k' : Nat) (v : β)
    (h : k' ≠ k) : lookupL (setL l k v) k' = lookupL l k' := by
  induction l with
  | nil => simp [setL, lookupL, Ne.symm h]
  | cons p ps ih =>
    by_cases hp : p.1 = k
    · simp [setL, lookupL, hp, Ne.symm h, ih]
    · by_cases hp' : p.1 = k'
      · simp [setL, lookupL, hp, hp', h]
      · simp [setL, lookupL, hp, hp', ih]

theorem setL_lookup_self {β : Type} (l : List (Nat × β)) (k : Nat) (v : β)
    (h : lookupL l k = some v) : setL l k v = l := by
  induction l with
  | nil => simp [lookupL] at h
  | cons p ps ih =>
    by_cases hp : p.1 = k
    · have h2 : p.2 = v := by simpa [lookupL, hp] using h
      show (if p.1 = k then (k, v) :: ps else p :: setL ps k v) = p :: ps
      rw [if_pos hp, ← h2, ← hp]
    · have h2 : lookupL ps k = some v := by simpa [lookupL, hp] using h
      simp [setL, hp, ih h2]

/-! ### Claim C10 -/

/-- Claim C10: when the wrapper's observed inner mount point changes to a
falsy value the observer callback performs no action at all — no detach, no
recursive render, no handle creation or release, no change detection: the
state is unchanged. -/
theorem falsy_inner_mount_noop (reg : Registry) (st : RState) (o : ObsData)
    (pv : Option Nat) (fc : Bool) :
    observerFire reg st o pv none fc = st := rfl

/-! ### Claim C1 -/

/-- Claim C1: rendering a node with an empty wrapper sequence and a type
identifier instantiates exactly one component handle, produced from the
registry's type renderer (not a wrapper renderer), and appends it to the
node's tracked handle list. -/
theorem render_leaf_single_handle (reg : Registry) (st : RState) (f : FieldConfig)
    (t : String) (cref : Nat) (refs : List Nat)
    (hty : f.type = some t) (hf : st.field = some f)
    (hrefs : lookupL st.fieldRefsMap f.id = some refs) :
    createsIn (traceDelta st (renderField reg st cref (some f) (some []))) =
      [Action.create st.nextHandle (HComp.typeC (reg.getType t)) cref] ∧
    (renderField reg st cref (some f) (some [])).nextHandle = st.nextHandle + 1 ∧
    (∃ l, lookupL (renderField reg st cref (some f) (some [])).fieldRefsMap f.id
        = some (l ++ [st.nextHandle])) := by
  by_cases hc : st.containerRef = cref
  · refine ⟨?_, ?_, ⟨refs.filter (fun r => !decide (r ∈ st.componentRefs)), ?_⟩⟩ <;>
      simp [renderField, renderFieldCore, createComponent, attachComponentRef, resetRefs, clearMount,
            pushTrace, traceDelta, createsIn, isCreateA, hc, hf, hrefs, hty,
            List.drop_left, List.filter_append]
  · refine ⟨?_, ?_, ⟨refs, ?_⟩⟩ <;>
      simp [renderField, renderFieldCore, createComponent, attachComponentRef, pushTrace, traceDelta,
            createsIn, isCreateA, hc, hty, hrefs, List.drop_left, List.filter_append]

/-- Concrete registry used by witnesses. -/
def regW : Registry :=
  { getWrapper := fun w => w ++ "W", getType := fun t => t ++ "T" }

/-- Concrete leaf node used by witnesses. -/
def fW : FieldConfig := { id := 1, type := some "input" }

/-- Witness for C1: rendering `fW` into the top-level mount point of a fresh
renderer creates exactly the type-renderer handle `0` and tracks it. -/
theorem render_leaf_single_handle_witness :
    createsIn (traceDelta (initState fW) (renderField regW (initState fW) 0 (some fW) (some []))) =
      [Action.create 0 (HComp.typeC "inputT") 0] ∧
    (renderField regW (initState fW) 0 (some fW) (some [])).nextHandle = 0 + 1 ∧
    (∃ l, lookupL (renderField regW (initState fW) 0 (some fW) (some [])).fieldRefsMap fW.id
        = some (l ++ [0])) := by
  have h := render_leaf_single_handle regW (initState fW) fW "input" 0 [] rfl rfl rfl
  simpa [regW, fW, initState] using h

/-! ### Claim C8 -/

/-- Claim C8: re-invoking `renderField` on the renderer's own top-level mount
point prunes the node's tracked handle list only of handles in this renderer
instance's own `componentRefs`: a handle tracked against the node by another
invocation stays in the tracked list and is not released. -/
theorem rerender_keeps_foreign_handles (reg : Registry) (st : RState) (f : FieldConfig)
    (refs : List Nat) (h : Nat) (w : Option (List String))
    (hf : st.field = some f)
    (hrefs : lookupL st.fieldRefsMap f.id = some refs)
    (hmem : h ∈ refs) (hnot : h ∉ st.componentRefs) :
    h ∈ (lookupL (renderField reg st st.containerRef (some f) w).fieldRefsMap f.id).getD [] ∧
    h ∉ releasedIn (traceDelta st (renderField reg st st.containerRef (some f) w)) := by
  rcases w with _ | ws
  · rcases hty : f.type with _ | t <;>
      constructor <;>
        simp [renderField, renderFieldCore, createComponent, attachComponentRef, resetRefs, clearMount,
              pushTrace, traceDelta, releasedIn, hf, hrefs, hty, hmem, hnot,
              List.mem_filter, List.drop_left]
  · rcases ws with _ | ⟨x, xs⟩
    · rcases hty : f.type with _ | t <;>
        constructor <;>
          simp [renderField, renderFieldCore, createComponent, attachComponentRef, resetRefs, clearMount,
                pushTrace, traceDelta, releasedIn, hf, hrefs, hty, hmem, hnot,
                List.mem_filter, List.drop_left]
    · constructor <;>
        simp [renderField, renderFieldCore, createComponent, attachComponentRef, resetRefs, clearMount,
              pushTrace, traceDelta, releasedIn, hf, hrefs, hmem, hnot,
              List.mem_filter, List.drop_left]

/-- State for the C8 witness: the renderer's own tracked set holds handle
`4`; handle `7` was tracked against the node by a different invocation. -/
def stC8 : RState :=
  { field := some fW, containerRef := 0, componentRefs := [4],
    fieldRefsMap := [(1, [4, 7])], mounts := [(0, [4])], nextHandle := 8, nextMount := 1 }

/-- Witness for C8: re-rendering on the top-level mount point keeps the
foreign handle `7` tracked and does not release it. -/
theorem rerender_keeps_foreign_handles_witness :
    7 ∈ (lookupL (renderField regW stC8 stC8.containerRef (some fW) (some [])).fieldRefsMap
          fW.id).getD [] ∧
    7 ∉ releasedIn (traceDelta stC8 (renderField regW stC8 stC8.containerRef (some fW) (some []))) :=
  rerender_keeps_foreign_handles regW stC8 fW [4, 7] 7 (some []) rfl rfl
    (by decide) (by decide)

/-! ### Trace and frame lemmas for teardown -/

@[simp]
theorem releasedIn_nil : releasedIn [] = [] := rfl

theorem releasedIn_cons (x : Action) (xs : List Action) :
    releasedIn (x :: xs)
      = (match x with | .pruneRefs _ rel => rel | _ => []) ++ releasedIn xs := by
  cases x <;> simp [releasedIn]

@[simp]
theorem releasedIn_append (a b : List Action) :
    releasedIn (a ++ b) = releasedIn a ++ releasedIn b := by
  induction a with
  | nil => simp
  | cons x xs ih =>
    rw [List.cons_append, releasedIn_cons, releasedIn_cons, ih, List.append_assoc]

@[simp]
theorem releasedIn_map_cancel (l : List Nat) : releasedIn (l.map Action.cancelA) = [] := by
  induction l with
  | nil => simp
  | cons x xs ih => simp [releasedIn_cons, ih]

theorem traceDelta_eq (s s' : RState) (d : List Action) (h : s'.trace = s.trace ++ d) :
    traceDelta s s' = d := by
  simp [traceDelta, h, List.drop_left]

/-- Components of the state `resetRefs` leaves untouched, and the emptied
`componentRefs`. -/
theorem resetRefs_frame (st : RState) (f : Option FieldConfig) :
    (resetRefs st f).field = st.field ∧ (resetRefs st f).componentRefs = [] ∧
    (resetRefs st f).hostObservers = st.hostObservers ∧
    (resetRefs st f).hooksObservers = st.hooksObservers ∧
    (resetRefs st f).valueSubs = st.valueSubs ∧
    (resetRefs st f).cancelled = st.cancelled ∧
    (resetRefs st f).containerRef = st.containerRef := by
  unfold resetRefs
  rcases f with _ | fc
  · simp
  · cases h : lookupL st.fieldRefsMap fc.id with
    | some refs => simp [h]
    | none => cases hf : st.field <;> simp [h, hf]

/-- Trace shape of `resetRefs`: it appends only `pruneRefs` actions, and with
an empty `componentRefs` the released list is empty. -/
theorem resetRefs_trace_shape (st : RState) (f : Option FieldConfig) :
    ∃ d, (resetRefs st f).trace = st.trace ++ d ∧
      (∀ a ∈ d, ∃ i rel, a = Action.pruneRefs i rel) ∧
      (st.componentRefs = [] → releasedIn d = []) := by
  unfold resetRefs
  rcases f with _ | fc
  · exact ⟨[], by simp, by simp, by simp⟩
  · cases h : lookupL st.fieldRefsMap fc.id with
    | some refs =>
      refine ⟨[Action.pruneRefs fc.id (refs.filter (fun r => decide (r ∈ st.componentRefs)))],
        by simp [h], by simp, ?_⟩
      intro hc
      simp [hc, releasedIn_cons]
    | none =>
      cases hf : st.field with
      | none => exact ⟨[], by simp [h, hf], by simp, by simp⟩
      | some cur =>
        exact ⟨[Action.pruneRefs cur.id []], by simp [h, hf], by simp,
          by simp [releasedIn_cons]⟩

/-- `triggerHook` on `onDestroy` only fires the node's `onDestroy` hook (when
defined); it holds no observable result and triggers no re-render. -/
theorem triggerHook_onDestroy_spec (reg : Registry) (st : RState) :
    triggerHook reg st .onDestroy none
      = (match st.field with
         | none => st
         | some fc =>
           match fc.hooks.onDestroy with
           | none => st
           | some _ => pushTrace st (.hookCall .onDestroy)) := by
  unfold triggerHook
  cases hf : st.field with
  | none => simp [hookStage1, hookStage2, hf]
  | some fc =>
    cases ho : fc.hooks.onDestroy with
    | none => simp [hookStage1, hookStage2, hf, Hooks.get, ho]
    | some b =>
      cases b <;> simp [hookStage1, hookStage2, hf, Hooks.get, ho, changesFieldOk]

@[simp]
theorem cancelAll_field (st : RState) (l : List Nat) : (cancelAll st l).field = st.field := rfl

@[simp]
theorem cancelAll_componentRefs (st : RState) (l : List Nat) :
    (cancelAll st l).componentRefs = st.componentRefs := rfl

@[simp]
theorem cancelAll_hostObservers (st : RState) (l : List Nat) :
    (cancelAll st l).hostObservers = st.hostObservers := rfl

@[simp]
theorem cancelAll_hooksObservers (st : RState) (l : List Nat) :
    (cancelAll st l).hooksObservers = st.hooksObservers := rfl

@[simp]
theorem cancelAll_valueSubs (st : RState) (l : List Nat) :
    (cancelAll st l).valueSubs = st.valueSubs := rfl

@[simp]
theorem cancelAll_cancelled (st : RState) (l : List Nat) :
    (cancelAll st l).cancelled = st.cancelled ++ l := rfl

@[simp]
theorem cancelAll_trace (st : RState) (l : List Nat) :
    (cancelAll st l).trace = st.trace ++ l.map Action.cancelA := rfl

@[simp]
theorem pushTrace_field (st : RState) (a : Action) : (pushTrace st a).field = st.field := rfl

@[simp]
theorem pushTrace_componentRefs (st : RState) (a : Action) :
    (pushTrace st a).componentRefs = st.componentRefs := rfl

@[simp]
theorem pushTrace_cancelled (st : RState) (a : Action) :
    (pushTrace st a).cancelled = st.cancelled := rfl

@[simp]
theorem pushTrace_trace (st : RState) (a : Action) :
    (pushTrace st a).trace = st.trace ++ [a] := rfl

/-- Full characterization of one `ngOnDestroy` run: trace decomposition into
prune actions, the cancellation batch, and the hook segment; the cancel set
it accumulates; and the emptied `componentRefs`. -/
theorem ngOnDestroy_spec (reg : Registry) (st : RState) :
    ∃ d0 dh,
      (ngOnDestroy reg st).trace
        = st.trace ++ d0
            ++ (st.hostObservers ++ st.hooksObservers ++ st.valueSubs).map Action.cancelA
            ++ dh ∧
      (∀ a ∈ d0, ∃ i rel, a = Action.pruneRefs i rel) ∧
      (st.componentRefs = [] → releasedIn d0 = []) ∧
      (∀ a ∈ dh, isCancelA a = false) ∧
      releasedIn dh = [] ∧
      (ngOnDestroy reg st).cancelled
        = st.cancelled ++ st.hostObservers ++ st.hooksObservers ++ st.valueSubs ∧
      (ngOnDestroy reg st).componentRefs = [] ∧
      (ngOnDestroy reg st).field = st.field ∧
      (∀ fc, st.field = some fc → fc.hooks.onDestroy.isSome →
        Action.hookCall HookName.onDestroy ∈ dh) := by
  obtain ⟨d0, h0, hshape, hrel⟩ := resetRefs_trace_shape st st.field
  obtain ⟨hfield, hcomp, hhost, hhooks, hsubs, hcanc, _⟩ := resetRefs_frame st st.field
  refine ⟨d0, ?_⟩
  unfold ngOnDestroy
  rw [triggerHook_onDestroy_spec]
  cases hf : st.field with
  | none =>
    rw [hf] at h0 hfield hcomp hhost hhooks hsubs hcanc
    refine ⟨[], ?_, hshape, hrel, by simp, by simp, ?_, ?_, ?_, ?_⟩
    · simp [hfield, h0, hhost, hhooks, hsubs]
    · simp [hfield, hcanc, hhost, hhooks, hsubs]
    · simp [hfield, hcomp]
    · simp [hfield]
    · intro fc hfc; cases hfc
  | some fc =>
    rw [hf] at h0 hfield hcomp hhost hhooks hsubs hcanc
    cases ho : fc.hooks.onDestroy with
    | none =>
      refine ⟨[], ?_, hshape, hrel, by simp, by simp, ?_, ?_, ?_, ?_⟩
      · simp [hfield, ho, h0, hhost, hhooks, hsubs]
      · simp [hfield, ho, hcanc, hhost, hhooks, hsubs]
      · simp [hfield, ho, hcomp]
      · simp [hfield, ho]
      · intro fc' hfc hds
        cases hfc
        simp [ho] at hds
    | some b =>
      refine ⟨[Action.hookCall HookName.onDestroy], ?_, hshape, hrel, by simp [isCancelA],
        by simp [releasedIn_cons], ?_, ?_, ?_, ?_⟩
      · simp [hfield, ho, h0, hhost, hhooks, hsubs]
      · simp [hfield, ho, hcanc, hhost, hhooks, hsubs]
      · simp [hfield, ho, hcomp]
      · simp [hfield, ho]
      · intro fc' hfc hds
        simp

/-! ### Claim C7 -/

/-- Claim C7: teardown is idempotent — a second `ngOnDestroy` releases no
handle — and each teardown cancels every host-level observer, hook-held
reactive handle and the value-change subscription chain it established,
with all cancellations preceding the `onDestroy` hook invocation. -/
theorem teardown_idempotent_and_cancels (reg : Registry) (st : RState) :
    releasedIn (traceDelta (ngOnDestroy reg st) (ngOnDestroy reg (ngOnDestroy reg st))) = [] ∧
    (ngOnDestroy reg st).cancelled
      = st.cancelled ++ st.hostObservers ++ st.hooksObservers ++ st.valueSubs ∧
    (∀ s, s ∈ st.hostObservers ++ st.hooksObservers ++ st.valueSubs →
      s ∈ (ngOnDestroy reg st).cancelled) ∧
    (∃ d1 d2, traceDelta st (ngOnDestroy reg st) = d1 ++ d2 ∧
      (∀ a ∈ d1, isHookCallA a = false) ∧ (∀ a ∈ d2, isCancelA a = false)) ∧
    (∀ fc, st.field = some fc → fc.hooks.onDestroy.isSome →
      Action.hookCall HookName.onDestroy ∈ traceDelta st (ngOnDestroy reg st)) := by
  obtain ⟨d0, dh, htr, hshape, hrel, hdhc, hdhr, hcanc, hcomp, hfield, hcall⟩ :=
    ngOnDestroy_spec reg st
  obtain ⟨d0', dh', htr', hshape', hrel', hdhc', hdhr', _, _, _, _⟩ :=
    ngOnDestroy_spec reg (ngOnDestroy reg st)
  have hdelta : traceDelta st (ngOnDestroy reg st)
      = d0 ++ (st.hostObservers ++ st.hooksObservers ++ st.valueSubs).map Action.cancelA ++ dh :=
    traceDelta_eq _ _ _ (by rw [htr]; simp [List.append_assoc])
  have hdelta' : traceDelta (ngOnDestroy reg st) (ngOnDestroy reg (ngOnDestroy reg st))
      = d0' ++ ((ngOnDestroy reg st).hostObservers ++ (ngOnDestroy reg st).hooksObservers
            ++ (ngOnDestroy reg st).valueSubs).map Action.cancelA ++ dh' :=
    traceDelta_eq _ _ _ (by rw [htr']; simp [List.append_assoc])
  refine ⟨?_, hcanc, ?_, ?_, ?_⟩
  · rw [hdelta']
    simp [hrel' hcomp, hdhr']
  · intro s hs
    rw [hcanc]
    simp only [List.append_assoc, List.mem_append]
    right
    simpa [List.append_assoc] using hs
  · refine ⟨d0 ++ (st.hostObservers ++ st.hooksObservers ++ st.valueSubs).map Action.cancelA,
      dh, by rw [hdelta], ?_, hdhc⟩
    intro a ha
    rcases List.mem_append.mp ha with h1 | h2
    · obtain ⟨i, rel, hi⟩ := hshape a h1
      rw [hi]; rfl
    · obtain ⟨s, _, hs⟩ := List.mem_map.mp h2
      rw [← hs]; rfl
  · intro fc hfc hds
    rw [hdelta]
    exact List.mem_append.mpr (Or.inr (hcall fc hfc hds))

/-- Node with an `onDestroy` hook for the C7 witness. -/
def fD : FieldConfig := { id := 2, type := some "input", hooks := { onDestroy := some false } }

/-- State for the C7 witness: established host observers, a hook-held
observer, a value-change chain, and tracked handles. -/
def stC7 : RState :=
  { field := some fD, containerRef := 0, componentRefs := [4],
    hostObservers := [10], hooksObservers := [11], valueSubs := [12, 13],
    fieldRefsMap := [(2, [4, 7])], mounts := [(0, [4])], nextHandle := 8, nextSub := 14 }

/-- Witness for C7 at a concrete state: the second teardown releases
nothing, every established subscription is cancelled, and the `onDestroy`
hook fires. -/
theorem teardown_idempotent_and_cancels_witness :
    releasedIn (traceDelta (ngOnDestroy regW stC7) (ngOnDestroy regW (ngOnDestroy regW stC7))) = [] ∧
    (ngOnDestroy regW stC7).cancelled = [] ++ [10] ++ [11] ++ [12, 13] ∧
    10 ∈ (ngOnDestroy regW stC7).cancelled ∧
    Action.hookCall HookName.onDestroy ∈ traceDelta stC7 (ngOnDestroy regW stC7) := by
  have h := teardown_idempotent_and_cancels regW stC7
  exact ⟨h.1, h.2.1, h.2.2.1 10 (by decide), h.2.2.2.2 fD rfl (by decide)⟩

/-! ### Frame lemmas for the `onChanges` pipeline -/

theorem fieldChanges_frame (st : RState) (f : Option FieldConfig) :
    (fieldChanges st f).field = st.field ∧
    (fieldChanges st f).componentRefs = st.componentRefs ∧
    (fieldChanges st f).fieldRefsMap = st.fieldRefsMap ∧
    (fieldChanges st f).containerRef = st.containerRef ∧
    (fieldChanges st f).hostObservers = st.hostObservers ∧
    ∃ d, (fieldChanges st f).trace = st.trace ++ d := by
  unfold fieldChanges
  cases f with
  | none => exact ⟨rfl, rfl, rfl, rfl, rfl, st.valueSubs.map Action.cancelA, rfl⟩
  | some fc =>
    exact ⟨rfl, rfl, rfl, rfl, rfl,
      st.valueSubs.map Action.cancelA ++ [Action.subscribeValueChanges], by simp⟩

theorem hookStage1_cases (st : RState) (n : HookName)
    (ch : Option (Option FieldSimpleChange)) :
    hookStage1 st n ch = st ∨ hookStage1 st n ch = fieldChanges st st.field := by
  cases n with
  | onInit => exact Or.inr rfl
  | onChanges =>
    rcases ch with _ | (_ | c)
    · exact Or.inl rfl
    · exact Or.inl rfl
    · by_cases hc : c.firstChange
      · exact Or.inl (by simp [hookStage1, hc])
      · exact Or.inr (by simp [hookStage1, hc])
  | afterContentInit => exact Or.inl rfl
  | afterViewInit => exact Or.inl rfl
  | onDestroy => exact Or.inl rfl

theorem hookStage1_frame (st : RState) (n : HookName)
    (ch : Option (Option FieldSimpleChange)) :
    (hookStage1 st n ch).field = st.field ∧
    (hookStage1 st n ch).componentRefs = st.componentRefs ∧
    (hookStage1 st n ch).fieldRefsMap = st.fieldRefsMap ∧
    (hookStage1 st n ch).containerRef = st.containerRef ∧
    (hookStage1 st n ch).hostObservers = st.hostObservers ∧
    ∃ d, (hookStage1 st n ch).trace = st.trace ++ d := by
  rcases hookStage1_cases st n ch with h | h <;> rw [h]
  · exact ⟨rfl, rfl, rfl, rfl, rfl, [], by simp⟩
  · exact fieldChanges_frame st st.field

theorem hookStage2_frame (st : RState) (n : HookName)
    (ch : Option (Option FieldSimpleChange)) :
    (hookStage2 st n ch).field = st.field ∧
    (hookStage2 st n ch).componentRefs = st.componentRefs ∧
    (hookStage2 st n ch).fieldRefsMap = st.fieldRefsMap ∧
    (hookStage2 st n ch).containerRef = st.containerRef ∧
    (hookStage2 st n ch).hostObservers = st.hostObservers ∧
    ∃ d, (hookStage2 st n ch).trace = st.trace ++ d := by
  unfold hookStage2
  cases hf : st.field with
  | none =>
    refine ⟨?_, ?_, ?_, ?_, ?_, [], ?_⟩ <;> simp [hf]
  | some fc =>
    cases hg : fc.hooks.get n with
    | none =>
      refine ⟨?_, ?_, ?_, ?_, ?_, [], ?_⟩ <;> simp [hf, hg]
    | some obs =>
      by_cases hok : changesFieldOk ch = true
      · by_cases hio : (obs && (decide (n = HookName.onInit)
            || decide (n = HookName.afterContentInit)
            || decide (n = HookName.afterViewInit))) = true
        · refine ⟨?_, ?_, ?_, ?_, ?_, [Action.hookCall n], ?_⟩ <;>
            simp [hf, hg, hok, hio, pushTrace]
        · refine ⟨?_, ?_, ?_, ?_, ?_, [Action.hookCall n], ?_⟩ <;>
            simp [hf, hg, hok, hio, pushTrace]
      · refine ⟨?_, ?_, ?_, ?_, ?_, [], ?_⟩ <;> simp [hf, hg, hok]

theorem renderHostBinding_spec (st : RState) (fc : FieldConfig) (hf : st.field = some fc) :
    (renderHostBinding st).field = st.field ∧
    (renderHostBinding st).componentRefs = st.componentRefs ∧
    (renderHostBinding st).fieldRefsMap = st.fieldRefsMap ∧
    (renderHostBinding st).containerRef = st.containerRef ∧
    (renderHostBinding st).trace
      = st.trace ++ st.hostObservers.map Action.cancelA ++ [Action.hostBinding] := by
  refine ⟨?_, ?_, ?_, ?_, ?_⟩ <;> simp [renderHostBinding, hf, cancelAll]

/-- Behaviour of `resetRefs` on a node whose `_componentRefs` list is
present. -/
theorem resetRefs_prev_spec (st : RState) (p : FieldConfig) (refs : List Nat)
    (hrefs : lookupL st.fieldRefsMap p.id = some refs) :
    resetRefs st (some p)
      = { st with
            fieldRefsMap := setL st.fieldRefsMap p.id
              (refs.filter (fun r => !decide (r ∈ st.componentRefs))),
            componentRefs := [],
            trace := st.trace ++
              [Action.pruneRefs p.id (refs.filter (fun r => decide (r ∈ st.componentRefs)))] } := by
  simp only [resetRefs, hrefs]

theorem renderFieldCore_trace_ext (reg : Registry) (s : RState) (cref : Nat)
    (f : Option FieldConfig) (w : Option (List String)) :
    ∃ d, (renderFieldCore reg s cref f w).trace = s.trace ++ d ∧
      ∀ a ∈ d, isDetectA a = false := by
  rcases w with _ | (_ | ⟨x, xs⟩)
  · rcases f with _ | fc
    · exact ⟨[], by simp [renderFieldCore], by simp⟩
    · rcases hty : fc.type with _ | t
      · exact ⟨[], by simp [renderFieldCore, hty], by simp⟩
      · exact ⟨[Action.create s.nextHandle (HComp.typeC (reg.getType t)) cref],
          by simp [renderFieldCore, hty, createComponent, attachComponentRef],
          by simp [isDetectA]⟩
  · rcases f with _ | fc
    · exact ⟨[], by simp [renderFieldCore], by simp⟩
    · rcases hty : fc.type with _ | t
      · exact ⟨[], by simp [renderFieldCore, hty], by simp⟩
      · exact ⟨[Action.create s.nextHandle (HComp.typeC (reg.getType t)) cref],
          by simp [renderFieldCore, hty, createComponent, attachComponentRef],
          by simp [isDetectA]⟩
  · exact ⟨[Action.create s.nextHandle (HComp.wrapperC (reg.getWrapper x)) cref],
      by cases f <;> simp [renderFieldCore, createComponent, attachComponentRef],
      by simp [isDetectA]⟩

/-- Trace extension of a `renderField` invocation: it first records the
render start, and everything it appends afterwards is free of
change-detection actions. -/
theorem renderField_trace_ext (reg : Registry) (st : RState) (cref : Nat)
    (f : Option FieldConfig) (w : Option (List String)) :
    ∃ d, (renderField reg st cref f w).trace
        = st.trace ++ Action.renderStart cref (f.map (fun fc => fc.id)) :: d ∧
      ∀ a ∈ d, isDetectA a = false := by
  simp only [renderField]
  split
  · obtain ⟨d0, hd0, hsh0, -⟩ :=
      resetRefs_trace_shape (pushTrace st (.renderStart cref (f.map (fun fc => fc.id))))
        (pushTrace st (.renderStart cref (f.map (fun fc => fc.id)))).field
    obtain ⟨d1, hd1, hdet1⟩ :=
      renderFieldCore_trace_ext reg
        (clearMount
          (resetRefs (pushTrace st (.renderStart cref (f.map (fun fc => fc.id))))
            (pushTrace st (.renderStart cref (f.map (fun fc => fc.id)))).field)
          (pushTrace st (.renderStart cref (f.map (fun fc => fc.id)))).containerRef)
        cref f w
    refine ⟨d0 ++ [Action.clearMountA st.containerRef] ++ d1, ?_, ?_⟩
    · simp only [pushTrace] at hd0
      rw [hd1]
      simp [clearMount, pushTrace, hd0]
    · intro a ha
      rcases List.mem_append.mp ha with h1 | h2
      · rcases List.mem_append.mp h1 with h3 | h4
        · obtain ⟨i, rel, hi⟩ := hsh0 a h3
          rw [hi]; rfl
        · rcases List.mem_singleton.mp h4 with rfl
          rfl
      · exact hdet1 a h2
  · obtain ⟨d1, hd1, hdet1⟩ :=
      renderFieldCore_trace_ext reg
        (pushTrace st (.renderStart cref (f.map (fun fc => fc.id)))) cref f w
    refine ⟨d1, ?_, hdet1⟩
    rw [hd1]
    simp [pushTrace]

/-! ### Claim C9 -/

/-- Claim C9: on a `changed` transition with a changed node reference,
exactly three steps run in this order with nothing interleaved: host-level
bindings are re-established, then the handles tracked for the *previous*
node are pruned, then the renderer is invoked on the top-level mount point
with the new node and its wrapper sequence (a missing wrapper list behaves
exactly like the empty sequence). -/
theorem onChanges_three_steps (reg : Registry) (st : RState) (f p : FieldConfig)
    (c : FieldSimpleChange) (refs : List Nat)
    (hf : st.field = some f) (hprev : c.previousValue = some p)
    (hrefs : lookupL st.fieldRefsMap p.id = some refs) :
    (∃ pre rest,
      (triggerHook reg st .onChanges (some (some c))).trace
        = st.trace ++ pre
            ++ [Action.hostBinding,
                Action.pruneRefs p.id (refs.filter (fun r => decide (r ∈ st.componentRefs))),
                Action.renderStart st.containerRef (some f.id)]
            ++ rest) ∧
    (∃ stR, triggerHook reg st .onChanges (some (some c))
        = renderField reg stR st.containerRef (some f) f.wrappers) ∧
    (∀ (s2 : RState) (c2 : Nat) (f2 : Option FieldConfig),
      renderField reg s2 c2 f2 none = renderField reg s2 c2 f2 (some [])) := by
  have hstep : triggerHook reg st .onChanges (some (some c))
      = renderField reg
          (resetRefs (renderHostBinding
              (hookStage2 (hookStage1 st .onChanges (some (some c))) .onChanges (some (some c))))
            c.previousValue)
          (resetRefs (renderHostBinding
              (hookStage2 (hookStage1 st .onChanges (some (some c))) .onChanges (some (some c))))
            c.previousValue).containerRef
          (resetRefs (renderHostBinding
              (hookStage2 (hookStage1 st .onChanges (some (some c))) .onChanges (some (some c))))
            c.previousValue).field
          (match (resetRefs (renderHostBinding
              (hookStage2 (hookStage1 st .onChanges (some (some c))) .onChanges (some (some c))))
            c.previousValue).field with
           | some fc => fc.wrappers
           | none => some []) := rfl
  rw [hprev] at hstep
  set stA := hookStage1 st .onChanges (some (some c)) with hstA
  set stB := hookStage2 stA .onChanges (some (some c)) with hstB
  set stC := renderHostBinding stB with hstC
  obtain ⟨hA1, hA2, hA3, hA4, hA5, dA, hAtr⟩ := hookStage1_frame st .onChanges (some (some c))
  rw [← hstA] at hA1 hA2 hA3 hA4 hA5 hAtr
  obtain ⟨hB1, hB2, hB3, hB4, hB5, dB, hBtr⟩ := hookStage2_frame stA .onChanges (some (some c))
  rw [← hstB] at hB1 hB2 hB3 hB4 hB5 hBtr
  have hBf : stB.field = some f := by rw [hB1, hA1, hf]
  obtain ⟨hC1, hC2, hC3, hC4, hCtr⟩ := renderHostBinding_spec stB f hBf
  rw [← hstC] at hC1 hC2 hC3 hC4 hCtr
  have hCrefs : lookupL stC.fieldRefsMap p.id = some refs := by rw [hC3, hB3, hA3]; exact hrefs
  have hCcomp : stC.componentRefs = st.componentRefs := by rw [hC2, hB2, hA2]
  have hCfield : stC.field = some f := by rw [hC1]; exact hBf
  have hCcont : stC.containerRef = st.containerRef := by rw [hC4, hB4, hA4]
  have hD := resetRefs_prev_spec stC p refs hCrefs
  have hDfield : (resetRefs stC (some p)).field = some f := by rw [hD]; exact hCfield
  have hDcont : (resetRefs stC (some p)).containerRef = st.containerRef := by
    rw [hD]; exact hCcont
  have hDtrace : (resetRefs stC (some p)).trace
      = stC.trace
          ++ [Action.pruneRefs p.id (refs.filter (fun r => decide (r ∈ st.componentRefs)))] := by
    rw [hD]
    simp [hCcomp]
  obtain ⟨dR, hRtr, -⟩ :=
    renderField_trace_ext reg (resetRefs stC (some p))
      (resetRefs stC (some p)).containerRef (resetRefs stC (some p)).field
      (match (resetRefs stC (some p)).field with
       | some fc => fc.wrappers
       | none => some [])
  refine ⟨⟨dA ++ dB ++ st.hostObservers.map Action.cancelA, dR, ?_⟩,
    ⟨resetRefs stC (some p), ?_⟩, ?_⟩
  · rw [hstep, hRtr, hDtrace, hCtr, hBtr, hAtr, hB5, hA5, hDcont, hDfield]
    simp [List.append_assoc]
  · rw [hstep, hDcont, hDfield]
  · intro s2 c2 f2
    rfl

/-- New node of the C9 witness (one wrapper). -/
def fNew : FieldConfig := { id := 5, type := some "input", wrappers := some ["panel"] }

/-- Previous node of the C9 witness. -/
def pOld : FieldConfig := { id := 4, type := some "select" }

/-- State for the C9 witness: the previous node tracks handles `3` and `6`,
this renderer owns `3`. -/
def stC9 : RState :=
  { field := some fNew, containerRef := 0, componentRefs := [3],
    hostObservers := [17, 18], fieldRefsMap := [(4, [3, 6]), (5, [])],
    mounts := [(0, [3])], nextHandle := 9, nextSub := 20 }

/-- Witness for C9 at a concrete transition: host binding, then pruning of
the previous node's handles, then the render start, consecutively. -/
theorem onChanges_three_steps_witness :
    (∃ pre rest,
      (triggerHook regW stC9 .onChanges (some (some ⟨some pOld, false⟩))).trace
        = stC9.trace ++ pre
            ++ [Action.hostBinding,
                Action.pruneRefs pOld.id
                  ([3, 6].filter (fun r => decide (r ∈ stC9.componentRefs))),
                Action.renderStart stC9.containerRef (some fNew.id)]
            ++ rest) ∧
    (∃ stR, triggerHook regW stC9 .onChanges (some (some ⟨some pOld, false⟩))
        = renderField regW stR stC9.containerRef (some fNew) fNew.wrappers) ∧
    (∀ (s2 : RState) (c2 : Nat) (f2 : Option FieldConfig),
      renderField regW s2 c2 f2 none = renderField regW s2 c2 f2 (some [])) :=
  onChanges_three_steps regW stC9 fNew pOld ⟨some pOld, false⟩ [3, 6] rfl rfl rfl

/-! ### Claim C3 -/

/-- Trace shape of one observer firing on a truthy inner mount point: some
detect-free work, followed by a forced change-detection exactly when this is
not the first observation. -/
theorem observerFire_shape (reg : Registry) (st : RState) (o : ObsData)
    (pv : Option Nat) (cur : Nat) (fc : Bool) :
    ∃ d, (observerFire reg st o pv (some cur) fc).trace
        = st.trace ++ (if fc then d else d ++ [Action.detectChangesA o.refId]) ∧
      (∀ a ∈ d, isDetectA a = false) := by
  cases pv with
  | none =>
    obtain ⟨dR, hR, hdetR⟩ := renderField_trace_ext reg
      { st with handles := setInnerL st.handles o.refId cur } cur o.f (some o.wps)
    refine ⟨Action.renderStart cur (o.f.map (fun fc2 => fc2.id)) :: dR, ?_, ?_⟩
    · cases fc <;> simp [observerFire, pushTrace, hR]
    · intro a ha
      rcases List.mem_cons.mp ha with rfl | h
      · rfl
      · exact hdetR a h
  | some pm =>
    cases hl : ((lookupL st.mounts pm).getD []).getLast? with
    | none =>
      obtain ⟨dR, hR, hdetR⟩ := renderField_trace_ext reg
        { st with handles := setInnerL st.handles o.refId cur } cur o.f (some o.wps)
      refine ⟨Action.renderStart cur (o.f.map (fun fc2 => fc2.id)) :: dR, ?_, ?_⟩
      · cases fc <;> simp [observerFire, detachMount, viewsOf, pushTrace, hl, hR]
      · intro a ha
        rcases List.mem_cons.mp ha with rfl | h
        · rfl
        · exact hdetR a h
    | some vr =>
      by_cases hd : vr ∈ st.destroyedViews
      · obtain ⟨dR, hR, hdetR⟩ := renderField_trace_ext reg
          { st with handles := setInnerL st.handles o.refId cur,
                    mounts := setL st.mounts pm (((lookupL st.mounts pm).getD []).dropLast),
                    trace := st.trace ++ [Action.detachA pm vr] } cur o.f (some o.wps)
        refine ⟨Action.detachA pm vr
            :: Action.renderStart cur (o.f.map (fun fc2 => fc2.id)) :: dR, ?_, ?_⟩
        · cases fc <;> simp [observerFire, detachMount, viewsOf, pushTrace, hl, hd, hR]
        · intro a ha
          rcases List.mem_cons.mp ha with rfl | h
          · rfl
          · rcases List.mem_cons.mp h with rfl | h2
            · rfl
            · exact hdetR a h2
      · refine ⟨[Action.detachA pm vr, Action.insertA cur vr], ?_, by simp [isDetectA]⟩
        cases fc <;>
          simp [observerFire, detachMount, insertMount, viewsOf, pushTrace, hl, hd]

/-- Claim C3: when a wrapper's observed inner mount point changes, (a) a
surviving detachable sub-tree of the previous inner mount point is reattached
to the new one with no new handle created; (b) with no previous inner mount
point, no detachable sub-tree, or a destroyed one, the node is re-rendered
into the new mount point with the remaining wrappers; and (c) change
detection is forced immediately afterwards on every observation except the
very first. -/
theorem wrapper_inner_mount_change (reg : Registry) (st : RState) (o : ObsData)
    (pv : Option Nat) (cur : Nat) (fc : Bool) :
    (∀ pm vr, pv = some pm → pm ≠ cur →
      (viewsOf st pm).getLast? = some vr → vr ∉ st.destroyedViews →
        (observerFire reg st o pv (some cur) fc).nextHandle = st.nextHandle ∧
        (observerFire reg st o pv (some cur) fc).handles.length = st.handles.length ∧
        viewsOf (observerFire reg st o pv (some cur) fc) cur = viewsOf st cur ++ [vr] ∧
        (∀ a ∈ traceDelta st (observerFire reg st o pv (some cur) fc),
          isCreateA a = false)) ∧
    ((pv = none ∨ (∃ pm, pv = some pm ∧ (viewsOf st pm).getLast? = none) ∨
        (∃ pm vr, pv = some pm ∧ (viewsOf st pm).getLast? = some vr ∧
          vr ∈ st.destroyedViews)) →
      Action.renderStart cur (o.f.map (fun fc2 => fc2.id)) ∈
        traceDelta st (observerFire reg st o pv (some cur) fc)) ∧
    (fc = false →
      (traceDelta st (observerFire reg st o pv (some cur) fc)).getLast?
        = some (Action.detectChangesA o.refId)) ∧
    (fc = true →
      ∀ a ∈ traceDelta st (observerFire reg st o pv (some cur) fc),
        isDetectA a = false) := by
  obtain ⟨d, hsh, hdet⟩ := observerFire_shape reg st o pv cur fc
  refine ⟨?_, ?_, ?_, ?_⟩
  · rintro pm vr rfl hne hlast hvr
    have hlast' : ((lookupL st.mounts pm).getD []).getLast? = some vr := by
      simpa [viewsOf] using hlast
    have hlcur : lookupL (setL st.mounts pm (((lookupL st.mounts pm).getD []).dropLast)) cur
        = lookupL st.mounts cur := lookupL_setL_ne _ _ _ _ (Ne.symm hne)
    refine ⟨?_, ?_, ?_, ?_⟩
    · cases fc <;>
        simp [observerFire, detachMount, insertMount, pushTrace, viewsOf, hlast', hvr]
    · cases fc <;>
        simp [observerFire, detachMount, insertMount, pushTrace, viewsOf, setInnerL,
              hlast', hvr]
    · cases fc <;>
        simp [observerFire, detachMount, insertMount, pushTrace, viewsOf, hlast', hvr, hlcur]
    · have hdl : traceDelta st (observerFire reg st o (some pm) (some cur) fc)
          = if fc then [Action.detachA pm vr, Action.insertA cur vr]
            else [Action.detachA pm vr, Action.insertA cur vr,
                  Action.detectChangesA o.refId] := by
        cases fc <;>
          · apply traceDelta_eq
            simp [observerFire, detachMount, insertMount, pushTrace, viewsOf, hlast', hvr]
      rw [hdl]
      cases fc <;> simp [isCreateA]
  · rintro (rfl | ⟨pm, rfl, hl⟩ | ⟨pm, vr, rfl, hl, hd2⟩)
    · obtain ⟨dR, hR, -⟩ := renderField_trace_ext reg
        { st with handles := setInnerL st.handles o.refId cur } cur o.f (some o.wps)
      have hdl : traceDelta st (observerFire reg st o none (some cur) fc)
          = if fc then Action.renderStart cur (o.f.map (fun fc2 => fc2.id)) :: dR
            else (Action.renderStart cur (o.f.map (fun fc2 => fc2.id)) :: dR)
              ++ [Action.detectChangesA o.refId] := by
        cases fc <;>
          · apply traceDelta_eq
            simp [observerFire, pushTrace, hR]
      rw [hdl]
      cases fc <;> simp
    · have hl' : ((lookupL st.mounts pm).getD []).getLast? = none := by
        simpa [viewsOf] using hl
      obtain ⟨dR, hR, -⟩ := renderField_trace_ext reg
        { st with handles := setInnerL st.handles o.refId cur } cur o.f (some o.wps)
      have hdl : traceDelta st (observerFire reg st o (some pm) (some cur) fc)
          = if fc then Action.renderStart cur (o.f.map (fun fc2 => fc2.id)) :: dR
            else (Action.renderStart cur (o.f.map (fun fc2 => fc2.id)) :: dR)
              ++ [Action.detectChangesA o.refId] := by
        cases fc <;>
          · apply traceDelta_eq
            simp [observerFire, detachMount, viewsOf, pushTrace, hl', hR]
      rw [hdl]
      cases fc <;> simp
    · have hl' : ((lookupL st.mounts pm).getD []).getLast? = some vr := by
        simpa [viewsOf] using hl
      obtain ⟨dR, hR, -⟩ := renderField_trace_ext reg
        { st with handles := setInnerL st.handles o.refId cur,
                  mounts := setL st.mounts pm (((lookupL st.mounts pm).getD []).dropLast),
                  trace := st.trace ++ [Action.detachA pm vr] } cur o.f (some o.wps)
      have hdl : traceDelta st (observerFire reg st o (some pm) (some cur) fc)
          = if fc then Action.detachA pm vr
              :: Action.renderStart cur (o.f.map (fun fc2 => fc2.id)) :: dR
            else (Action.detachA pm vr
              :: Action.renderStart cur (o.f.map (fun fc2 => fc2.id)) :: dR)
              ++ [Action.detectChangesA o.refId] := by
        cases fc <;>
          · apply traceDelta_eq
            simp [observerFire, detachMount, viewsOf, pushTrace, hl', hd2, hR]
      rw [hdl]
      cases fc <;> simp
  · rintro rfl
    rw [traceDelta_eq st _ (d ++ [Action.detectChangesA o.refId]) (by simpa using hsh)]
    exact List.getLast?_concat _
  · rintro rfl
    rw [traceDelta_eq st _ d (by simpa using hsh)]
    exact hdet

/-- Observer data of the C3 witness: wrapper handle `2` over node `fW` with
no remaining wrappers. -/
def oC3 : ObsData := { refId := 2, f := some fW, wps := [] }

/-- State for the C3 witness: the previous inner mount point `5` holds the
live view `9`; the new inner mount point is `6`. -/
def stC3 : RState :=
  { field := some fW, containerRef := 0,
    fieldRefsMap := [(1, [2])],
    handles := [{ id := 2, comp := HComp.wrapperC "panelW", mount := 0 }],
    mounts := [(0, [2]), (5, [9]), (6, [])], nextHandle := 3, nextMount := 7 }

/-- Witness for C3 at a concrete relocation: the surviving view `9` moves
from mount point `5` to mount point `6` with no new handle, and change
detection is forced because this is not the first observation. -/
theorem wrapper_inner_mount_change_witness :
    (observerFire regW stC3 oC3 (some 5) (some 6) false).nextHandle = stC3.nextHandle ∧
    (observerFire regW stC3 oC3 (some 5) (some 6) false).handles.length
      = stC3.handles.length ∧
    viewsOf (observerFire regW stC3 oC3 (some 5) (some 6) false) 6
      = viewsOf stC3 6 ++ [9] ∧
    (traceDelta stC3 (observerFire regW stC3 oC3 (some 5) (some 6) false)).getLast?
      = some (Action.detectChangesA oC3.refId) := by
  have h := wrapper_inner_mount_change regW stC3 oC3 (some 5) 6 false
  obtain ⟨h1, h2, h3, -⟩ := h.1 5 9 rfl (by decide) (by decide) (by decide)
  exact ⟨h1, h2, h3, h.2.2.1 rfl⟩

/-! ### Claim C2 -/

theorem setInnerL_append (l1 l2 : List Handle) (r m : Nat) :
    setInnerL (l1 ++ l2) r m = setInnerL l1 r m ++ setInnerL l2 r m := by
  simp [setInnerL]

theorem setInnerL_not_mem (l : List Handle) (r m : Nat) (h : ∀ x ∈ l, x.id ≠ r) :
    setInnerL l r m = l := by
  induction l with
  | nil => rfl
  | cons x xs ih =>
    simp only [setInnerL, List.map_cons] at ih ⊢
    rw [if_neg (h x (by simp)), ih (fun y hy => h y (by simp [hy]))]

theorem setAttachedL_append (l1 l2 : List Handle) (r fid : Nat) :
    setAttachedL (l1 ++ l2) r fid = setAttachedL l1 r fid ++ setAttachedL l2 r fid := by
  simp [setAttachedL]

theorem setAttachedL_not_mem (l : List Handle) (r fid : Nat) (h : ∀ x ∈ l, x.id ≠ r) :
    setAttachedL l r fid = l := by
  induction l with
  | nil => rfl
  | cons x xs ih =>
    simp only [setAttachedL, List.map_cons] at ih ⊢
    rw [if_neg (h x (by simp)), ih (fun y hy => h y (by simp [hy]))]

theorem setInnerL_id_lt (l : List Handle) (r m k : Nat) (h : ∀ x ∈ l, x.id < k) :
    ∀ x ∈ setInnerL l r m, x.id < k := by
  intro x hx
  rcases List.mem_map.mp (by simpa [setInnerL] using hx) with ⟨y, hy, rfl⟩
  by_cases hyr : y.id = r
  · simpa [hyr] using h y hy
  · simpa [hyr] using h y hy

theorem setAttachedL_id_lt (l : List Handle) (r fid k : Nat) (h : ∀ x ∈ l, x.id < k) :
    ∀ x ∈ setAttachedL l r fid, x.id < k := by
  intro x hx
  rcases List.mem_map.mp (by simpa [setAttachedL] using hx) with ⟨y, hy, rfl⟩
  by_cases hyr : y.id = r
  · simpa [hyr] using h y hy
  · simpa [hyr] using h y hy

/-- Collapsing one level of `renderFieldCore` on a non-empty wrapper list. -/
theorem renderFieldCore_wrapper_eq (reg : Registry) (s : RState) (cref : Nat)
    (f : FieldConfig) (w : String) (wps : List String) :
    renderFieldCore reg s cref (some f) (some (w :: wps))
      = { s with
          componentRefs := s.componentRefs ++ [s.nextHandle],
          fieldRefsMap := setL s.fieldRefsMap f.id
            ((lookupL s.fieldRefsMap f.id).getD [] ++ [s.nextHandle]),
          handles := setAttachedL
            (s.handles
              ++ [{ id := s.nextHandle, comp := HComp.wrapperC (reg.getWrapper w),
                    mount := cref }])
            s.nextHandle f.id,
          mounts := setL s.mounts cref (viewsOf s cref ++ [s.nextHandle]),
          obsQueue := s.obsQueue ++ [{ refId := s.nextHandle, f := some f, wps := wps }],
          nextHandle := s.nextHandle + 1,
          trace := s.trace
            ++ [Action.create s.nextHandle (HComp.wrapperC (reg.getWrapper w)) cref] } := by
  simp [renderFieldCore, createComponent, attachComponentRef]

/-- Collapsing `renderFieldCore` on the empty wrapper list for a typed node. -/
theorem renderFieldCore_leaf_eq (reg : Registry) (s : RState) (cref : Nat)
    (f : FieldConfig) (t : String) (hty : f.type = some t) :
    renderFieldCore reg s cref (some f) (some [])
      = { s with
          componentRefs := s.componentRefs ++ [s.nextHandle],
          fieldRefsMap := setL s.fieldRefsMap f.id
            ((lookupL s.fieldRefsMap f.id).getD [] ++ [s.nextHandle]),
          handles := setAttachedL
            (s.handles
              ++ [{ id := s.nextHandle, comp := HComp.typeC (reg.getType t),
                    mount := cref }])
            s.nextHandle f.id,
          mounts := setL s.mounts cref (viewsOf s cref ++ [s.nextHandle]),
          nextHandle := s.nextHandle + 1,
          trace := s.trace
            ++ [Action.create s.nextHandle (HComp.typeC (reg.getType t)) cref] } := by
  simp [renderFieldCore, hty, createComponent, attachComponentRef]

/-- `renderFieldCore` on the empty wrapper list of a group-only node does
nothing. -/
theorem renderFieldCore_group_eq (reg : Registry) (s : RState) (cref : Nat)
    (f : FieldConfig) (hty : f.type = none) :
    renderFieldCore reg s cref (some f) (some []) = s := by
  simp [renderFieldCore, hty]

/-- One canonical driver step: the pending observer fires at first attach
with a fresh inner mount point, and the recursive `renderField` invocation
reaches the instantiation dispatch (the fresh mount point is not the
renderer's top-level one, so no reset happens). -/
theorem driveObservers_step (reg : Registry) (f : FieldConfig) (st : RState) (r : Nat)
    (ws : List String) (n : Nat)
    (hq : st.obsQueue = [{ refId := r, f := some f, wps := ws }])
    (hne : st.containerRef ≠ st.nextMount) :
    driveObservers reg (n + 1) st
      = driveObservers reg n (renderFieldCore reg
          { st with obsQueue := [], nextMount := st.nextMount + 1,
                    mounts := setL st.mounts st.nextMount [],
                    handles := setInnerL st.handles r st.nextMount,
                    trace := st.trace
                      ++ [Action.renderStart st.nextMount (some f.id)] }
          st.nextMount (some f) (some ws)) := by
  simp only [driveObservers, hq]
  congr 1
  simp [observerFire, renderField, pushTrace, hne]

/-- The canonical drive of a single pending observer produces exactly the
nested wrapper/leaf handle chain. -/
theorem driveObservers_chain (reg : Registry) (f : FieldConfig) :
    ∀ (ws : List String) (st : RState) (r : Nat),
      st.obsQueue = [{ refId := r, f := some f, wps := ws }] →
      st.containerRef < st.nextMount →
      (∀ x ∈ st.handles, x.id < st.nextHandle) →
      (driveObservers reg (ws.length + 1) st).handles
        = setInnerL st.handles r st.nextMount
            ++ chainHandles reg f.id st.nextHandle st.nextMount ws f.type := by
  intro ws
  induction ws with
  | nil =>
    intro st r hq hc hh
    have hne := Nat.ne_of_lt hc
    rw [show ([] : List String).length + 1 = 0 + 1 from rfl,
      driveObservers_step reg f st r [] 0 hq hne]
    have hids : ∀ x ∈ setInnerL st.handles r st.nextMount, x.id ≠ st.nextHandle :=
      fun x hx => Nat.ne_of_lt (setInnerL_id_lt st.handles r st.nextMount st.nextHandle hh x hx)
    cases hty : f.type with
    | some t =>
      rw [renderFieldCore_leaf_eq reg _ _ f t hty]
      simp only [driveObservers]
      simp only [setAttachedL_append, setAttachedL_not_mem _ _ _ hids]
      simp [setAttachedL, chainHandles, hty]
    | none =>
      rw [renderFieldCore_group_eq reg _ _ f hty]
      simp [driveObservers, chainHandles, hty]
  | cons w wps ih =>
    intro st r hq hc hh
    have hne := Nat.ne_of_lt hc
    have hids : ∀ x ∈ setInnerL st.handles r st.nextMount, x.id ≠ st.nextHandle :=
      fun x hx => Nat.ne_of_lt (setInnerL_id_lt st.handles r st.nextMount st.nextHandle hh x hx)
    rw [show (w :: wps).length + 1 = (wps.length + 1) + 1 from rfl,
      driveObservers_step reg f st r (w :: wps) (wps.length + 1) hq hne]
    set L : RState :=
      { st with
        obsQueue := [], nextMount := st.nextMount + 1,
        mounts := setL st.mounts st.nextMount [],
        handles := setInnerL st.handles r st.nextMount,
        trace := st.trace ++ [Action.renderStart st.nextMount (some f.id)] } with hL
    have h1 : (renderFieldCore reg L st.nextMount (some f) (some (w :: wps))).obsQueue
        = [{ refId := st.nextHandle, f := some f, wps := wps }] := by
      rw [renderFieldCore_wrapper_eq]
      simp [hL]
    have h2 : (renderFieldCore reg L st.nextMount (some f) (some (w :: wps))).containerRef
        < (renderFieldCore reg L st.nextMount (some f) (some (w :: wps))).nextMount := by
      rw [renderFieldCore_wrapper_eq]
      exact Nat.lt_succ_of_lt hc
    have h3 : ∀ x ∈ (renderFieldCore reg L st.nextMount (some f) (some (w :: wps))).handles,
        x.id < (renderFieldCore reg L st.nextMount (some f) (some (w :: wps))).nextHandle := by
      rw [renderFieldCore_wrapper_eq]
      intro x hx
      simp only [hL] at hx ⊢
      refine setAttachedL_id_lt _ _ _ _ ?_ x hx
      intro y hy
      rcases List.mem_append.mp hy with hy1 | hy2
      · exact Nat.lt_succ_of_lt (setInnerL_id_lt st.handles r st.nextMount st.nextHandle hh y hy1)
      · rcases List.mem_singleton.mp hy2 with rfl
        exact Nat.lt_succ_self _
    rw [ih (renderFieldCore reg L st.nextMount (some f) (some (w :: wps))) st.nextHandle h1 h2 h3,
      renderFieldCore_wrapper_eq]
    simp only [hL]
    simp only [setAttachedL_append, setAttachedL_not_mem _ _ _ hids,
      setInnerL_append, setInnerL_not_mem _ _ _ hids]
    simp [setAttachedL, setInnerL, chainHandles]

theorem chainHandles_map_comp (reg : Registry) (fid : Nat) :
    ∀ (ws : List String) (h m : Nat) (ty : Option String),
      (chainHandles reg fid h m ws ty).map Handle.comp
        = ws.map (fun w => HComp.wrapperC (reg.getWrapper w))
          ++ (match ty with
              | some t => [HComp.typeC (reg.getType t)]
              | none => []) := by
  intro ws
  induction ws with
  | nil => intro h m ty; cases ty <;> simp [chainHandles]
  | cons w wps ih => intro h m ty; simp [chainHandles, ih]

theorem chainHandles_length (reg : Registry) (fid : Nat) :
    ∀ (ws : List String) (h m : Nat) (ty : Option String),
      (chainHandles reg fid h m ws ty).length
        = ws.length + (match ty with | some _ => 1 | none => 0) := by
  intro ws
  induction ws with
  | nil => intro h m ty; cases ty <;> simp [chainHandles]
  | cons w wps ih =>
    intro h m ty
    simp [chainHandles, ih]
    omega

theorem chainHandles_head_mount (reg : Registry) (fid : Nat) (ws : List String)
    (h m : Nat) (ty : Option String) (hne : ws ≠ [] ∨ ty.isSome) :
    ∃ x rest, chainHandles reg fid h m ws ty = x :: rest ∧ x.mount = m := by
  cases ws with
  | nil =>
    cases ty with
    | none => simp at hne
    | some t => exact ⟨_, _, rfl, rfl⟩
  | cons w wps => exact ⟨_, _, rfl, rfl⟩

theorem chainHandles_chain' (reg : Registry) (fid : Nat) :
    ∀ (ws : List String) (h m : Nat) (ty : Option String),
      List.Chain' (fun a b => a.inner = some b.mount) (chainHandles reg fid h m ws ty) := by
  intro ws
  induction ws with
  | nil => intro h m ty; cases ty <;> simp [chainHandles]
  | cons w wps ih =>
    intro h m ty
    have hcons : chainHandles reg fid h m (w :: wps) ty
        = { id := h, comp := HComp.wrapperC (reg.getWrapper w), mount := m,
            inner := some (m + 1), attachedField := some fid }
          :: chainHandles reg fid (h + 1) (m + 1) wps ty := rfl
    by_cases hemp : wps = [] ∧ ty = none
    · obtain ⟨rfl, rfl⟩ := hemp
      simp [chainHandles]
    · have hne2 : wps ≠ [] ∨ ty.isSome = true := by
        rcases wps with _ | ⟨a, b⟩
        · rcases ty with _ | t
          · exact absurd ⟨rfl, rfl⟩ hemp
          · exact Or.inr rfl
        · exact Or.inl (by simp)
      obtain ⟨x, rest, hx, hxm⟩ := chainHandles_head_mount reg fid wps (h + 1) (m + 1) ty hne2
      rw [hcons, hx, List.chain'_cons]
      refine ⟨by simp [hxm], ?_⟩
      rw [← hx]
      exact ih (h + 1) (m + 1) ty

/-- The state of a fresh renderer after the first `renderField` level on a
node with wrapper sequence `w :: wps`: the outer wrapper is instantiated at
the top-level mount point and its `fieldComponent` observer is pending. -/
def firstStepState (reg : Registry) (fid : Nat) (ty : Option String) (w : String)
    (wps : List String) : RState :=
  { field := some { id := fid, type := ty, wrappers := some (w :: wps) },
    containerRef := 0, componentRefs := [0],
    fieldRefsMap := [(fid, [0])],
    handles := [{ id := 0, comp := HComp.wrapperC (reg.getWrapper w), mount := 0,
                  attachedField := some fid }],
    mounts := [(0, [0])],
    obsQueue := [{ refId := 0,
                   f := some { id := fid, type := ty, wrappers := some (w :: wps) },
                   wps := wps }],
    nextHandle := 1, nextMount := 1,
    trace := [Action.renderStart 0 (some fid), Action.pruneRefs fid [],
      Action.clearMountA 0,
      Action.create 0 (HComp.wrapperC (reg.getWrapper w)) 0] }

theorem renderField_first_step (reg : Registry) (fid : Nat) (ty : Option String)
    (w : String) (wps : List String) :
    renderField reg (initState { id := fid, type := ty, wrappers := some (w :: wps) })
        0 (some { id := fid, type := ty, wrappers := some (w :: wps) }) (some (w :: wps))
      = firstStepState reg fid ty w wps := by
  simp [renderField, renderFieldCore, initState, firstStepState, resetRefs, clearMount,
    pushTrace, createComponent, attachComponentRef, setAttachedL, viewsOf, lookupL, setL]

/-- Claim C2: a full render of a node with non-empty wrapper sequence `ws`
(each wrapper exposing its inner mount point once) produces exactly
`ws.length` wrapper instantiations in sequence order followed by at most one
leaf instantiation (exactly one when the node has a type identifier, zero
otherwise); the first wrapper sits at the top-level mount point and every
later instantiation goes into the previous wrapper's inner mount point. -/
theorem render_wrapper_chain (reg : Registry) (fid : Nat) (ws : List String)
    (ty : Option String) (hnews : ws ≠ []) :
    (renderAll reg { id := fid, type := ty, wrappers := some ws }).handles
        = chainHandles reg fid 0 0 ws ty ∧
    (renderAll reg { id := fid, type := ty, wrappers := some ws }).handles.map Handle.comp
        = ws.map (fun w => HComp.wrapperC (reg.getWrapper w))
          ++ (match ty with
              | some t => [HComp.typeC (reg.getType t)]
              | none => []) ∧
    (renderAll reg { id := fid, type := ty, wrappers := some ws }).handles.length
        = ws.length + (match ty with | some _ => 1 | none => 0) ∧
    List.Chain' (fun a b => a.inner = some b.mount)
      (renderAll reg { id := fid, type := ty, wrappers := some ws }).handles ∧
    ((renderAll reg { id := fid, type := ty, wrappers := some ws }).handles.head?).map
        Handle.mount = some 0 := by
  obtain ⟨w, wps, rfl⟩ : ∃ w wps, ws = w :: wps := by
    cases ws with
    | nil => cases hnews rfl
    | cons a b => exact ⟨a, b, rfl⟩
  have hq1 : (firstStepState reg fid ty w wps).obsQueue
      = [{ refId := 0,
           f := some { id := fid, type := ty, wrappers := some (w :: wps) }, wps := wps }] := rfl
  have hc1 : (firstStepState reg fid ty w wps).containerRef
      < (firstStepState reg fid ty w wps).nextMount := Nat.zero_lt_one
  have hh1 : ∀ x ∈ (firstStepState reg fid ty w wps).handles,
      x.id < (firstStepState reg fid ty w wps).nextHandle := by
    intro x hx
    rcases List.mem_singleton.mp hx with rfl
    exact Nat.zero_lt_one
  have hchain := driveObservers_chain reg { id := fid, type := ty, wrappers := some (w :: wps) }
    wps (firstStepState reg fid ty w wps) 0 hq1 hc1 hh1
  have hmain : (renderAll reg { id := fid, type := ty, wrappers := some (w :: wps) }).handles
      = chainHandles reg fid 0 0 (w :: wps) ty := by
    have hrw : renderAll reg { id := fid, type := ty, wrappers := some (w :: wps) }
        = driveObservers reg (wps.length + 1) (firstStepState reg fid ty w wps) := by
      rw [← renderField_first_step reg fid ty w wps]
      simp [renderAll]
    rw [hrw, hchain]
    simp [firstStepState, setInnerL, chainHandles]
  refine ⟨hmain, ?_, ?_, ?_, ?_⟩
  · rw [hmain, chainHandles_map_comp]
  · rw [hmain, chainHandles_length]
  · rw [hmain]
    exact chainHandles_chain' reg fid (w :: wps) 0 0 ty
  · obtain ⟨x, rest, hx, hxm⟩ :=
      chainHandles_head_mount reg fid (w :: wps) 0 0 ty (Or.inl (by simp))
    rw [hmain, hx]
    simp [hxm]

/-- Witness for C2: two wrappers over a typed node produce the two wrapper
handles in order and one leaf handle, each nested in the previous wrapper's
inner mount point. -/
def fC2 : FieldConfig := { id := 7, type := some "input", wrappers := some ["a", "b"] }

theorem render_wrapper_chain_witness :
    (renderAll regW fC2).handles = chainHandles regW 7 0 0 ["a", "b"] (some "input") ∧
    (renderAll regW fC2).handles.map Handle.comp
        = ["a", "b"].map (fun w => HComp.wrapperC (regW.getWrapper w))
          ++ [HComp.typeC (regW.getType "input")] ∧
    (renderAll regW fC2).handles.length = 3 ∧
    List.Chain' (fun a b => a.inner = some b.mount) (renderAll regW fC2).handles ∧
    ((renderAll regW fC2).handles.head?).map Handle.mount = some 0 := by
  have h := render_wrapper_chain regW 7 ["a", "b"] (some "input") (by decide)
  exact ⟨h.1, h.2.1, h.2.2.1, h.2.2.2.1, h.2.2.2.2⟩

end Formly
